import Mathlib

/-!
Shallow embedding of the log-stream scanning engine of
`src/testcontainers/src/core/logs.rs`, together with proofs of the
specified properties of `wait_for_message`, `handle_line`,
`end_of_stream`, `WaitError`, `get_log_dump_file_path` and the
`LOGS_DUMP_DIR_PATH` computation.

Modelling choices:
* A line-oriented stream is embedded as the finite list of line-read
  results it yields: `List (Except IoError String)`.  Both the blocking
  `BufReader::lines` iterator and the asynchronous `BoxStream` produce
  exactly such a sequence of `Result<String, io::Error>` values.
* `std::io::Error` is opaque to this module (it is only moved into
  `WaitError::Io`), so it is embedded as an abstract value `IoError`.
* Rust `String` is embedded as Lean `String`; `str::contains` for a
  string pattern is byte-level substring search, which on valid UTF-8
  coincides with character-level substring containment, embedded here
  as `strContains`.
* `PathBuf` is embedded as its list of components; `Path::join` with a
  single file-name component appends that component.
-/

namespace Logs

/-- Abstract stand-in for `std::io::Error`.  The engine never inspects
the error, it only moves it into `WaitError::Io`, so an opaque tag
suffices. -/
structure IoError where
  code : Nat
deriving DecidableEq, Repr

/-- One step of Rust `str::contains` search over the character list of
the haystack: the needle occurs iff it is a prefix here or occurs in
the tail. -/
def strContainsAux (needle : List Char) : List Char → Bool
  | [] => needle.isEmpty
  | c :: rest => List.isPrefixOf needle (c :: rest) || strContainsAux needle rest

/-- Embeds Rust `line.contains(message)`: literal substring containment
of `message` in `line` (case-sensitive, no pattern syntax). -/
def strContains (line message : String) : Bool :=
  strContainsAux message.data line.data

/-- `WaitError` from logs.rs: error cases when waiting for a message in
a stream.  `EndOfStream` carries all the lines that were read, for
debugging purposes; `Io` carries only the underlying error. -/
inductive WaitError where
  | EndOfStream : List String → WaitError
  | Io : IoError → WaitError
deriving DecidableEq, Repr

/-- Observer for the diagnostic-context claims: the buffered lines a
`WaitError` value carries, if any. -/
def WaitError.carriedLines : WaitError → Option (List String)
  | .EndOfStream ls => some ls
  | .Io _ => none

/-- `handle_line` from logs.rs.  The Rust function takes `lines` by
mutable reference and pushes the non-matching line; here the updated
buffer is returned alongside the match flag.  The `log::info!` call is
a dropped side effect. -/
def handle_line (line : String) (message : String) (lines : List String) :
    Bool × List String :=
  if strContains line message then
    (true, lines)
  else
    (false, lines ++ [line])

/-- `end_of_stream` from logs.rs (the `log::error!` call is a dropped
side effect). -/
def end_of_stream (lines : List String) : WaitError :=
  WaitError.EndOfStream lines

namespace LogStream

/-- The `for line in logs.lines()` loop body of
`LogStream::wait_for_message`, with the buffer `lines` threaded
explicitly.  `line?` turns a read error into an early
`Err(WaitError::Io(e))` return via the `From<io::Error>` impl. -/
def waitLoop (message : String) :
    List (Except IoError String) → List String → Except WaitError Unit
  | [], lines => Except.error (end_of_stream lines)
  | Except.error e :: _, _ => Except.error (WaitError.Io e)
  | Except.ok line :: rest, lines =>
      match handle_line line message lines with
      | (true, _) => Except.ok ()
      | (false, lines') => waitLoop message rest lines'

/-- `LogStream::wait_for_message` from logs.rs, over the sequence of
line-read results produced by `BufReader::lines` on the owned byte
stream.  Starts from the empty buffer `let mut lines = vec![]`. -/
def wait_for_message (input : List (Except IoError String)) (message : String) :
    Except WaitError Unit :=
  waitLoop message input []

end LogStream

namespace LogStreamAsync

/-- The `while let Some(line) = self.inner.next().await.transpose()?`
loop body of `LogStreamAsync::wait_for_message`, with the buffer
`lines` threaded explicitly.  `transpose()?` turns a stream item that
is an error into an early `Err(WaitError::Io(e))` return. -/
def waitLoop (message : String) :
    List (Except IoError String) → List String → Except WaitError Unit
  | [], lines => Except.error (end_of_stream lines)
  | Except.error e :: _, _ => Except.error (WaitError.Io e)
  | Except.ok line :: rest, lines =>
      match handle_line line message lines with
      | (true, _) => Except.ok ()
      | (false, lines') => waitLoop message rest lines'

/-- `LogStreamAsync::wait_for_message` from logs.rs, over the sequence
of items yielded by the inner `BoxStream`. -/
def wait_for_message (input : List (Except IoError String)) (message : String) :
    Except WaitError Unit :=
  waitLoop message input []

end LogStreamAsync

/-- Embeds `container_name.replace("/", "_")`: for the one-character
pattern `"/"`, every occurrence is a single `'/'` character, so the
replacement maps each character individually. -/
def replace_slash (s : String) : String :=
  String.mk (s.data.map (fun c => if c = '/' then '_' else c))

/-- `get_log_dump_file_path` from logs.rs.  Paths are modelled as their
component lists; `log_dump_dir.join(log_file_name)` appends the file
name as one component. -/
def get_log_dump_file_path (log_dump_dir : List String)
    (container_name : String) (stdtype : String) : List String :=
  let safe_container_name := replace_slash container_name
  let log_file_name := safe_container_name ++ "_" ++ stdtype ++ ".log"
  log_dump_dir ++ [log_file_name]

/-- Abstract stand-in for a `time` crate formatting error (`time::error::Format`). -/
structure FormatError where
  code : Nat
deriving DecidableEq, Repr

/-- Embeds `Result::unwrap_or` at the type used by the dump-dir
computation. -/
def unwrap_or (r : Except FormatError String) (default : String) : String :=
  match r with
  | Except.ok s => s
  | Except.error _ => default

/-- The initializer of `LOGS_DUMP_DIR_PATH` from logs.rs:
`PathBuf::from("testcontainers").join(now.format(iso8601).unwrap_or("".into()))`,
with the result of the timestamp formatting passed in explicitly (the
wall clock and the formatter are outside the model). -/
def logs_dump_dir_path (format_result : Except FormatError String) : List String :=
  ["testcontainers"] ++ [unwrap_or format_result ""]

/-! ## Helper lemmas -/

theorem isPrefixOf_iff_exists (l₁ l₂ : List Char) :
    List.isPrefixOf l₁ l₂ = true ↔ ∃ t, l₂ = l₁ ++ t := by
  induction l₁ generalizing l₂ with
  | nil => simp [List.isPrefixOf]
  | cons a as ih =>
    cases l₂ with
    | nil => simp [List.isPrefixOf]
    | cons b bs =>
      rw [List.isPrefixOf_cons₂]
      constructor
      · intro h
        rcases Bool.and_eq_true_iff.mp h with ⟨hab, hrest⟩
        rcases (ih bs).mp hrest with ⟨t, ht⟩
        exact ⟨t, by simp [beq_iff_eq.mp hab, ht]⟩
      · rintro ⟨t, ht⟩
        rw [List.cons_append] at ht
        injection ht with h₁ h₂
        exact Bool.and_eq_true_iff.mpr ⟨beq_iff_eq.mpr h₁.symm, (ih bs).mpr ⟨t, h₂⟩⟩

theorem strContainsAux_iff_exists (needle hay : List Char) :
    strContainsAux needle hay = true ↔ ∃ s t, hay = s ++ needle ++ t := by
  induction hay with
  | nil =>
    simp only [strContainsAux, List.isEmpty_iff]
    constructor
    · intro h
      exact ⟨[], [], by simp [h]⟩
    · rintro ⟨s, t, h⟩
      rcases List.append_eq_nil.mp h.symm with ⟨h₁, h₂⟩
      exact (List.append_eq_nil.mp h₁).2
  | cons c rest ih =>
    simp only [strContainsAux, Bool.or_eq_true]
    rw [isPrefixOf_iff_exists, ih]
    constructor
    · rintro (⟨t, ht⟩ | ⟨s, t, ht⟩)
      · exact ⟨[], t, by simp [ht]⟩
      · exact ⟨c :: s, t, by simp [ht]⟩
    · rintro ⟨s, t, ht⟩
      cases s with
      | nil => exact Or.inl ⟨t, by simpa using ht⟩
      | cons s₀ s' =>
        right
        rw [List.cons_append, List.cons_append] at ht
        injection ht with h₁ h₂
        exact ⟨s', t, h₂⟩

theorem strContainsAux_nil_needle (hay : List Char) :
    strContainsAux [] hay = true := by
  cases hay <;> simp [strContainsAux, List.isPrefixOf]

theorem strContains_iff_exists (line message : String) :
    strContains line message = true ↔
      ∃ s t, line.data = s ++ message.data ++ t :=
  strContainsAux_iff_exists message.data line.data

theorem LogStream.waitLoop_append_ok_match (message : String)
    (pre : List String) (line : String) (rest : List (Except IoError String))
    (buf : List String)
    (hpre : ∀ l ∈ pre, strContains l message = false)
    (hline : strContains line message = true) :
    LogStream.waitLoop message (pre.map Except.ok ++ Except.ok line :: rest) buf
      = Except.ok () := by
  induction pre generalizing buf with
  | nil =>
    simp [LogStream.waitLoop, handle_line, hline]
  | cons p pre' ih =>
    have hp : strContains p message = false := hpre p (List.mem_cons_self p pre')
    have hpre' : ∀ l ∈ pre', strContains l message = false := fun l hl =>
      hpre l (List.mem_cons_of_mem p hl)
    simp only [List.map_cons, List.cons_append, LogStream.waitLoop, handle_line, hp]
    exact ih (buf ++ [p]) hpre'

theorem LogStream.waitLoop_all_ok_no_match (message : String)
    (ls : List String) (buf : List String)
    (h : ∀ l ∈ ls, strContains l message = false) :
    LogStream.waitLoop message (ls.map Except.ok) buf
      = Except.error (WaitError.EndOfStream (buf ++ ls)) := by
  induction ls generalizing buf with
  | nil => simp [LogStream.waitLoop, end_of_stream]
  | cons p ls' ih =>
    have hp : strContains p message = false := h p (List.mem_cons_self p ls')
    have h' : ∀ l ∈ ls', strContains l message = false := fun l hl =>
      h l (List.mem_cons_of_mem p hl)
    have step : LogStream.waitLoop message ((p :: ls').map Except.ok) buf
        = LogStream.waitLoop message (ls'.map Except.ok) (buf ++ [p]) := by
      simp [LogStream.waitLoop, handle_line, hp]
    rw [step, ih (buf ++ [p]) h']
    simp

theorem LogStream.waitLoop_error_after_ok (message : String)
    (pre : List String) (e : IoError) (rest : List (Except IoError String))
    (buf : List String)
    (hpre : ∀ l ∈ pre, strContains l message = false) :
    LogStream.waitLoop message (pre.map Except.ok ++ Except.error e :: rest) buf
      = Except.error (WaitError.Io e) := by
  induction pre generalizing buf with
  | nil => simp [LogStream.waitLoop]
  | cons p pre' ih =>
    have hp : strContains p message = false := hpre p (List.mem_cons_self p pre')
    have hpre' : ∀ l ∈ pre', strContains l message = false := fun l hl =>
      hpre l (List.mem_cons_of_mem p hl)
    simp only [List.map_cons, List.cons_append, LogStream.waitLoop, handle_line, hp]
    exact ih (buf ++ [p]) hpre'

theorem waitLoop_async_eq_blocking (message : String)
    (input : List (Except IoError String)) (buf : List String) :
    LogStreamAsync.waitLoop message input buf
      = LogStream.waitLoop message input buf := by
  induction input generalizing buf with
  | nil => rfl
  | cons x rest ih =>
    cases x with
    | error e => rfl
    | ok line =>
      simp only [LogStreamAsync.waitLoop, LogStream.waitLoop]
      cases h : handle_line line message buf with
      | mk found lines' =>
        cases found with
        | true => rfl
        | false => exact ih lines'

/-! ## Claims -/

/-- C1: For every sequence of lines in which the target substring
appears in line k and in no earlier line, `wait_for_message` returns
success (`Ok(())`) after having read and scanned exactly lines 1..k;
no line after line k is read, so the outcome is the same for every
continuation `rest` of the stream, errors included. -/
theorem wait_for_message_succeeds_at_first_match
    (pre : List String) (line : String) (rest : List (Except IoError String))
    (message : String)
    (hpre : ∀ l ∈ pre, strContains l message = false)
    (hline : strContains line message = true) :
    LogStream.wait_for_message (pre.map Except.ok ++ Except.ok line :: rest) message
      = Except.ok () :=
  LogStream.waitLoop_append_ok_match message pre line rest [] hpre hline

/-- Witness for C1: the spec scenario, lines `["booting", "loading
config", "Creating new log file", "ready"]` with target `"Creating new
log file"`, succeeds after the third line. -/
theorem wait_for_message_succeeds_at_first_match_witness :
    LogStream.wait_for_message
        ([Except.ok "booting", Except.ok "loading config",
          Except.ok "Creating new log file", Except.ok "ready"])
        "Creating new log file"
      = Except.ok () :=
  wait_for_message_succeeds_at_first_match
    ["booting", "loading config"] "Creating new log file" [Except.ok "ready"]
    "Creating new log file" (by decide) (by decide)

/-- C2: For every sequence of lines none of which contains the target
substring, `wait_for_message` returns
`Err(WaitError::EndOfStream(ls))` where `ls` is exactly the full input
sequence of lines, in their original order. -/
theorem wait_for_message_end_of_stream_carries_all_lines
    (ls : List String) (message : String)
    (h : ∀ l ∈ ls, strContains l message = false) :
    LogStream.wait_for_message (ls.map Except.ok) message
      = Except.error (WaitError.EndOfStream ls) := by
  have := LogStream.waitLoop_all_ok_no_match message ls [] h
  simpa [LogStream.wait_for_message] using this

/-- Witness for C2: the spec scenario, lines `["booting", "failed"]`
with target `"ready"`, yields `EndOfStream(["booting", "failed"])`. -/
theorem wait_for_message_end_of_stream_carries_all_lines_witness :
    LogStream.wait_for_message [Except.ok "booting", Except.ok "failed"] "ready"
      = Except.error (WaitError.EndOfStream ["booting", "failed"]) :=
  wait_for_message_end_of_stream_carries_all_lines
    ["booting", "failed"] "ready" (by decide)

/-- C10: For a stream that yields zero lines, `wait_for_message`
returns `Err(WaitError::EndOfStream([]))`, for every target substring. -/
theorem wait_for_message_empty_stream (message : String) :
    LogStream.wait_for_message [] message
      = Except.error (WaitError.EndOfStream []) :=
  rfl

/-- Counterexample to C3 as stated: on an `Io` failure the returned
`WaitError` does not carry the buffered non-matching lines.  With one
buffered line `"booting"` and then a read error, the result is
`WaitError::Io`, which carries no lines at all. -/
theorem waitError_io_failure_drops_buffered_lines_cex :
    LogStream.wait_for_message
        [Except.ok "booting", Except.error (IoError.mk 7)] "ready"
      = Except.error (WaitError.Io (IoError.mk 7))
    ∧ WaitError.carriedLines (WaitError.Io (IoError.mk 7)) ≠ some ["booting"] :=
  ⟨rfl, by simp [WaitError.carriedLines]⟩

/-- C3 (amended): For every failing run of `wait_for_message`, an
`EndOfStream` failure carries exactly the buffered non-matching lines
read so far, while an `Io` failure carries only the underlying error
and no buffered lines. -/
theorem waitError_carries_lines_only_on_end_of_stream
    (pre : List String) (e : IoError) (rest : List (Except IoError String))
    (message : String)
    (hpre : ∀ l ∈ pre, strContains l message = false) :
    (LogStream.wait_for_message (pre.map Except.ok) message
        = Except.error (WaitError.EndOfStream pre)
      ∧ WaitError.carriedLines (WaitError.EndOfStream pre) = some pre)
    ∧ (LogStream.wait_for_message (pre.map Except.ok ++ Except.error e :: rest) message
        = Except.error (WaitError.Io e)
      ∧ WaitError.carriedLines (WaitError.Io e) = none) := by
  refine ⟨⟨?_, rfl⟩, ?_, rfl⟩
  · simpa [LogStream.wait_for_message] using
      LogStream.waitLoop_all_ok_no_match message pre [] hpre
  · exact LogStream.waitLoop_error_after_ok message pre e rest [] hpre

/-- Witness for the amended C3, at the buffered line `"booting"`, the
read error `IoError.mk 9` and target `"ready"`. -/
theorem waitError_carries_lines_only_on_end_of_stream_witness :
    (LogStream.wait_for_message [Except.ok "booting"] "ready"
        = Except.error (WaitError.EndOfStream ["booting"])
      ∧ WaitError.carriedLines (WaitError.EndOfStream ["booting"]) = some ["booting"])
    ∧ (LogStream.wait_for_message
          [Except.ok "booting", Except.error (IoError.mk 9)] "ready"
        = Except.error (WaitError.Io (IoError.mk 9))
      ∧ WaitError.carriedLines (WaitError.Io (IoError.mk 9)) = none) :=
  waitError_carries_lines_only_on_end_of_stream
    ["booting"] (IoError.mk 9) [] "ready" (by decide)

/-- C4: For every input sequence of line results, the suspend-based
variant `LogStreamAsync::wait_for_message` and the blocking variant
`LogStream::wait_for_message` produce the same outcome, including on
failure identical `WaitError` contents (the same buffered lines in the
same order). -/
theorem async_and_blocking_wait_agree
    (input : List (Except IoError String)) (message : String) :
    LogStreamAsync.wait_for_message input message
      = LogStream.wait_for_message input message :=
  waitLoop_async_eq_blocking message input []

/-- C5: If position k of the stream is the first read/decode error and
no earlier line matched the target, `wait_for_message` returns
`Err(WaitError::Io(e))` with that underlying error immediately: the
outcome is the same for every continuation `rest`, so no further line
is read and no retry occurs. -/
theorem wait_for_message_fails_fast_on_io_error
    (pre : List String) (e : IoError) (rest : List (Except IoError String))
    (message : String)
    (hpre : ∀ l ∈ pre, strContains l message = false) :
    LogStream.wait_for_message (pre.map Except.ok ++ Except.error e :: rest) message
      = Except.error (WaitError.Io e) :=
  LogStream.waitLoop_error_after_ok message pre e rest [] hpre

/-- Witness for C5: after the non-matching line `"booting"`, a read
error aborts the wait even though a matching line `"ready"` would have
followed. -/
theorem wait_for_message_fails_fast_on_io_error_witness :
    LogStream.wait_for_message
        [Except.ok "booting", Except.error (IoError.mk 3), Except.ok "ready"]
        "ready"
      = Except.error (WaitError.Io (IoError.mk 3)) :=
  wait_for_message_fails_fast_on_io_error
    ["booting"] (IoError.mk 3) [Except.ok "ready"] "ready" (by decide)

/-- C6: `get_log_dump_file_path` is pure and deterministic by
construction; it replaces every path-separator character `'/'` in the
container name with an underscore (so no `'/'` survives sanitisation)
and returns the dump dir joined with `"<sanitized>_<stream type>.log"`;
in particular container name `"minio/minio"` with stream type
`"stdout"` yields the file name `"minio_minio_stdout.log"`. -/
theorem get_log_dump_file_path_sanitizes
    (dir : List String) (container_name stdtype : String) :
    (get_log_dump_file_path dir container_name stdtype
        = dir ++ [replace_slash container_name ++ "_" ++ stdtype ++ ".log"])
    ∧ (∀ c ∈ (replace_slash container_name).data, c ≠ '/')
    ∧ get_log_dump_file_path ["testcontainers", "2024-01-01T00:00:00.00Z"]
        "minio/minio" "stdout"
      = ["testcontainers", "2024-01-01T00:00:00.00Z", "minio_minio_stdout.log"] := by
  refine ⟨rfl, ?_, by decide⟩
  intro c hc
  have hc' : c ∈ container_name.data.map (fun c => if c = '/' then '_' else c) := hc
  rcases List.mem_map.mp hc' with ⟨a, _, rfl⟩
  by_cases h : a = '/'
  · simp [h]
  · simp [h]

/-- C7: the Scanner's match test is exactly case-sensitive literal
substring containment: `handle_line` reports a match iff the target
occurs verbatim as a contiguous character run of the line; in
particular `"warn: starting"` does not match the target `"Starting"`. -/
theorem handle_line_is_literal_substring_match
    (line message : String) (lines : List String) :
    ((handle_line line message lines).fst = true
        ↔ ∃ s t, line.data = s ++ message.data ++ t)
    ∧ (handle_line "warn: starting" "Starting" []).fst = false := by
  constructor
  · have hfst : (handle_line line message lines).fst = strContains line message := by
      cases h : strContains line message with
      | true => simp [handle_line, h]
      | false => simp [handle_line, h]
    rw [hfst, strContains_iff_exists]
  · decide

/-- C8: if formatting the timestamp for the dump directory fails, the
dump-directory computation still produces a path (it cannot propagate
an error), substituting the empty string as the timestamp component. -/
theorem logs_dump_dir_path_on_format_error (e : FormatError) (ts : String) :
    logs_dump_dir_path (Except.error e) = ["testcontainers", ""]
    ∧ logs_dump_dir_path (Except.ok ts) = ["testcontainers", ts] :=
  ⟨rfl, rfl⟩

/-- C9: the empty target substring matches every line: with message
`""`, `wait_for_message` succeeds as soon as the stream yields one
successfully decoded line, and `handle_line` reports a match without
buffering the line. -/
theorem wait_for_message_empty_message
    (line : String) (rest : List (Except IoError String)) (lines : List String) :
    LogStream.wait_for_message (Except.ok line :: rest) "" = Except.ok ()
    ∧ handle_line line "" lines = (true, lines) := by
  have hm : strContains line "" = true := strContainsAux_nil_needle line.data
  constructor
  · simp [LogStream.wait_for_message, LogStream.waitLoop, handle_line, hm]
  · simp [handle_line, hm]

end Logs
